import Mathlib

/-!
# Verification of the news-publishing content core

This file is a shallow embedding, in Lean 4, of the algorithmic core of the
news publishing application: the slug/path generator (`PathGenerator` in the
news actions module), the comment engagement service (`addComment` /
`deleteComment`), and the dashboard aggregation helpers (`calculateTrend`,
activity resolution, metric assembly).

Modelling conventions:
* JavaScript strings are modelled as `List Char` (`Str`); the concrete regex
  pipeline of `PathGenerator.slugify` is rendered as character-level
  functions with the exact same semantics on each regex.
* The unbounded `while` loop of `PathGenerator.makeUnique` is embedded as a
  fuel-indexed recursion; the fuel `2 * used.length + 3` is proved sufficient
  (`makeUniqueLoop_not_mem`), i.e. the loop always exits before the fuel runs
  out, so the embedding computes the same value as the source loop.
* Database rows (news interactions, user interactions, comments) are records
  in lists; Prisma `findFirst` / `findUnique` become `List.find?`, updates
  by id become mapped updates, and the surrounding transaction is the pure
  state transformer itself.  Fallible operations return `Except String`.
* JavaScript numbers in the dashboard trend computation are modelled as
  rationals; integer counts embed exactly and the division-by-zero guard of
  the source is kept.
-/

/-- JavaScript strings are modelled as lists of characters. -/
abbrev Str := List Char

/-- Convert a Lean string literal to the `Str` model. -/
def strL (s : String) : Str := s.data

/-! ## Decimal rendering of counters

`makeUnique` builds suffixes with JavaScript template interpolation
`` `${counter}` ``, i.e. the base-10 rendering of the counter.  We embed that
rendering directly (most significant digit first). -/

/-- The character for a single decimal digit (`0 ≤ d ≤ 9`). -/
def decChar (d : Nat) : Char := Char.ofNat (48 + d)

/-- Numeric value of a decimal digit character. -/
def digitVal (c : Char) : Nat := c.toNat - 48

/-- Base-10 digit list of `n`, most significant first; `fuel` bounds the
recursion depth and any `fuel > n` is exact. -/
def natDigitsAux : Nat → Nat → List Char
  | 0, _ => []
  | fuel + 1, n =>
    if n < 10 then [decChar n]
    else natDigitsAux fuel (n / 10) ++ [decChar (n % 10)]

/-- Base-10 rendering of a natural number, as in `` `${counter}` ``. -/
def natDigits (n : Nat) : List Char := natDigitsAux (n + 1) n

/-- Value of a digit string read most-significant-first. -/
def digitsToNat (l : List Char) : Nat :=
  l.foldl (fun a c => a * 10 + digitVal c) 0

/-- The maximal run of trailing decimal digits of a string. -/
def trailingDigits (u : Str) : Str :=
  ((u.reverse).takeWhile Char.isDigit).reverse

/-- Numeric value of the trailing digit run of a string (`0` if none). -/
def trailVal (u : Str) : Nat := digitsToNat (trailingDigits u)

/-- Number of entries of `used` whose trailing numeric suffix is at least
`c`; measures how many further collisions the `makeUnique` loop can meet at
counters `≥ c`. -/
def collCount (used : List Str) (c : Nat) : Nat :=
  (used.filter (fun u => decide (c ≤ trailVal u))).length

/-! ## The path generator

Faithful embedding of the `PathGenerator` class of the news actions module:
`slugify`, `makeUnique` and `generatePath`, with the separator fixed to `'-'`
as in the source constructor. -/

namespace PathGenerator

/-- Characters kept by `.replace(/[^\w\s-]/g, '')`: word characters
(`[A-Za-z0-9_]`), whitespace, and the separator `'-'`. -/
def keepChar (c : Char) : Bool :=
  c.isAlphanum || c == '_' || c.isWhitespace || c == '-'

/-- A character matched by `[\s_]`: whitespace or underscore. -/
def wsOrUnderscore (c : Char) : Bool := c.isWhitespace || c == '_'

/-- Replace every maximal run of characters satisfying `p` by the single
character `r` (the semantics of `.replace(/X+/g, r)` for a character class
`X`).  The boolean argument records whether the previous character was part
of a run. -/
def collapseRuns (p : Char → Bool) (r : Char) : Str → Bool → Str
  | [], _ => []
  | c :: rest, inRun =>
    if p c then
      if inRun then collapseRuns p r rest true
      else r :: collapseRuns p r rest true
    else c :: collapseRuns p r rest false

/-- JS `String.prototype.trim`: drop whitespace from both ends. -/
def trimWs (l : Str) : Str :=
  ((l.dropWhile Char.isWhitespace).reverse.dropWhile Char.isWhitespace).reverse

/-- The step `.replace(/^-|-$/g, '')`: remove one leading and one trailing
separator. -/
def stripEdgeSep (l : Str) : Str :=
  let l1 := match l with
    | '-' :: t => t
    | other => other
  match l1.reverse with
  | '-' :: t => t.reverse
  | _ => l1

/-- Source `PathGenerator.slugify`: lowercase, trim, drop non-word characters,
collapse whitespace/underscore runs to `'-'`, collapse separator runs, strip
edge separators. -/
def slugify (text : Str) : Str :=
  stripEdgeSep
    (collapseRuns (fun c => c == '-') '-'
      (collapseRuns wsOrUnderscore '-'
        ((trimWs (text.map Char.toLower)).filter keepChar) false) false)

/-- The candidate ```${path}${this.separator}${counter}` `` built inside the
`makeUnique` loop. -/
def mkCand (path : Str) (counter : Nat) : Str :=
  path ++ '-' :: natDigits counter

/-- The `while` loop of `PathGenerator.makeUnique`, fuel-indexed.  One
iteration: if `finalPath` is still used, build `path + '-' + counter` and
bump the counter; if that candidate overflows `maxLen`, re-truncate `path`
to make room for the suffix built from the already-bumped counter (exactly
as in the source, where `counter++` runs before the overflow branch reads
`counter`). -/
def makeUniqueLoop (used : List Str) (maxLen : Nat) :
    Str → Nat → Str → Nat → Str
  | _, _, finalPath, 0 => finalPath
  | path, counter, finalPath, fuel + 1 =>
    if finalPath ∈ used then
      let fp1 := mkCand path counter
      if maxLen < fp1.length then
        let suffix := '-' :: natDigits (counter + 1)
        let path1 := path.take (maxLen - suffix.length)
        makeUniqueLoop used maxLen path1 (counter + 1) (path1 ++ suffix) fuel
      else
        makeUniqueLoop used maxLen path (counter + 1) fp1 fuel
    else finalPath

/-- Source `PathGenerator.makeUnique`: truncate an over-long base path to
`maxLength - 3`, then run the disambiguation loop starting from counter `1`.
The fuel `2 * used.length + 3` is proved sufficient for loop exit in
`makeUniqueLoop_not_mem`. -/
def makeUnique (used : List Str) (maxLen : Nat) (basePath : Str) : Str :=
  let path := if maxLen < basePath.length then basePath.take (maxLen - 3) else basePath
  makeUniqueLoop used maxLen path 1 path (2 * used.length + 3)

end PathGenerator

/-- The `PathGenerator` class state: the configured maximum length and the
working set of used paths (a JS `Set`, modelled as a list with membership
semantics). -/
structure PathGenerator where
  maxLength : Nat
  existingPaths : List Str

/-- Constructor `new PathGenerator(existingPaths)` with the default `maxLength = 100`. -/
def PathGenerator.new (existingPaths : List Str) : PathGenerator :=
  { maxLength := 100, existingPaths := existingPaths }

/-- Source `PathGenerator.generatePath`: slugify the title, disambiguate against the
working set, and add the result to the working set.  Returns the produced
path together with the updated generator state. -/
def PathGenerator.generatePath (g : PathGenerator) (title : Str) : Str × PathGenerator :=
  let slugged := PathGenerator.slugify title
  let uniquePath := PathGenerator.makeUnique g.existingPaths g.maxLength slugged
  (uniquePath, { g with existingPaths := uniquePath :: g.existingPaths })

/-- Repeated `generatePath` calls on one generator instance (one generation
batch): the list of paths returned for the given titles, in order. -/
def PathGenerator.generateAll (g : PathGenerator) : List Str → List Str
  | [] => []
  | t :: ts =>
    let r := g.generatePath t
    r.1 :: r.2.generateAll ts

/-- The slug-regeneration step of `updateNews`: all existing paths are
fetched, the item's own current path (`currentNews?.path`) is filtered out,
and a fresh generator over the filtered set produces the new path from the
new title. -/
def updateNewsPath (existingPaths : List Str) (currentPath : Option Str) (title : Str) : Str :=
  let filteredPaths := existingPaths.filter (fun p => decide (some p ≠ currentPath))
  ((PathGenerator.new filteredPaths).generatePath title).1

/-! ## Engagement service: comments and the two derived scores

Embedding of the comment actions module.  String ids of the database are
modelled as `Nat`; the Prisma transaction is the pure state transformer. -/

/-- The internal user record resolved by `getCurrentUserData` (only the id is
relevant to the comment actions). -/
structure UserRec where
  id : Nat
deriving DecidableEq

/-- A `NewsInteraction` row: per-item aggregate holding the popularity
score. -/
structure NewsInteraction where
  id : Nat
  newsId : Nat
  popularityScore : Int
deriving DecidableEq

/-- A `UserInteraction` row: per-user aggregate holding the contribution
score. -/
structure UserInteraction where
  id : Nat
  userId : Nat
  contributionScore : Int
deriving DecidableEq

/-- A `Comment` row, linked to one news interaction and one user
interaction. -/
structure CommentRec where
  id : Nat
  text : Str
  newsInteractionId : Nat
  userInteractionId : Nat
deriving DecidableEq

/-- The slice of the database touched by the comment actions.
`nextCommentId` models id generation for created comments. -/
structure DB where
  newsInteractions : List NewsInteraction
  userInteractions : List UserInteraction
  comments : List CommentRec
  nextCommentId : Nat
deriving DecidableEq

/-- Update `tx.newsInteraction.update` with `popularityScore: { increment: d }`
(or `decrement` for negative `d`), keyed by the interaction id. -/
def bumpNews (db : DB) (niId : Nat) (d : Int) : DB :=
  { db with
    newsInteractions := db.newsInteractions.map fun ni =>
      if ni.id == niId then { ni with popularityScore := ni.popularityScore + d } else ni }

/-- Update `tx.userInteraction.update` with `contributionScore: { increment: d }`,
keyed by the interaction id. -/
def bumpUser (db : DB) (uiId : Nat) (d : Int) : DB :=
  { db with
    userInteractions := db.userInteractions.map fun ui =>
      if ui.id == uiId then { ui with contributionScore := ui.contributionScore + d } else ui }

/-- Source `addComment`: validate the text (1–500 characters), require a session,
find the news interaction and the user interaction, then — in one
transaction — create the comment and increment both scores by 2. -/
def addComment (user : Option UserRec) (newsId : Nat) (text : Str) (db : DB) :
    Except String DB :=
  if text.length < 1 then .error "Comment cannot be empty"
  else if 500 < text.length then .error "Comment is too long"
  else match user with
  | none => .error "Unauthorized"
  | some u =>
    match db.newsInteractions.find? (fun x => x.newsId == newsId) with
    | none => .error "News interaction not found"
    | some ni =>
      match db.userInteractions.find? (fun x => x.userId == u.id) with
      | none => .error "User interaction not found"
      | some ui =>
        let db1 := { db with
          comments := db.comments ++
            [{ id := db.nextCommentId, text := text,
               newsInteractionId := ni.id, userInteractionId := ui.id }],
          nextCommentId := db.nextCommentId + 1 }
        .ok (bumpUser (bumpNews db1 ni.id 2) ui.id 2)

/-- Source `deleteComment`: require a session, load the comment with its owning
user interaction, fail with `Unauthorized` unless the requester authored it,
then — in one transaction — delete the comment and decrement both scores
by 2. -/
def deleteComment (user : Option UserRec) (commentId : Nat) (db : DB) :
    Except String DB :=
  match user with
  | none => .error "Unauthorized"
  | some u =>
    match db.comments.find? (fun x => x.id == commentId) with
    | none => .error "Comment not found"
    | some c =>
      match db.userInteractions.find? (fun x => x.id == c.userInteractionId) with
      | none => .error "User interaction not found"
      | some owner =>
        if owner.userId ≠ u.id then .error "Unauthorized"
        else
          let db1 := { db with comments := db.comments.filter (fun x => x.id != commentId) }
          .ok (bumpUser (bumpNews db1 c.newsInteractionId (-2)) c.userInteractionId (-2))

/-- The state actually persisted by a `deleteComment` request: on any error
the transaction never runs and the database is unchanged. -/
def applyDelete (user : Option UserRec) (commentId : Nat) (db : DB) : DB :=
  match deleteComment user commentId db with
  | .ok db' => db'
  | .error _ => db

/-- One engagement operation of a comment add/delete sequence. -/
inductive EngOp where
  | add (text : Str)
  | del (commentId : Nat)

/-- Number of `add` operations in a sequence. -/
def countAdd : List EngOp → Nat
  | [] => 0
  | .add _ :: r => countAdd r + 1
  | .del _ :: r => countAdd r

/-- Number of `del` operations in a sequence. -/
def countDel : List EngOp → Nat
  | [] => 0
  | .add _ :: r => countDel r
  | .del _ :: r => countDel r + 1

/-- A successful execution of a sequence of engagement operations, all by
user `u` on the single news item `n`: every `addComment` and `deleteComment`
call returns `ok`, and every deleted comment belongs (at deletion time) to
the pair — it links to that item's news interaction `niId` and the user's
own user interaction `uiId`. -/
inductive PairSteps (u : UserRec) (n : Nat) (niId uiId : Nat) :
    DB → List EngOp → DB → Prop where
  | nil : ∀ db, PairSteps u n niId uiId db [] db
  | add : ∀ db db' db'' text ops,
      addComment (some u) n text db = .ok db' →
      PairSteps u n niId uiId db' ops db'' →
      PairSteps u n niId uiId db (.add text :: ops) db''
  | del : ∀ db db' db'' cid c ops,
      deleteComment (some u) cid db = .ok db' →
      db.comments.find? (fun x => x.id == cid) = some c →
      c.newsInteractionId = niId →
      c.userInteractionId = uiId →
      PairSteps u n niId uiId db' ops db'' →
      PairSteps u n niId uiId db (.del cid :: ops) db''

/-! ## Dashboard aggregator -/

/-- Source `calculateTrend`: percentage day-over-day change, defined as 0 when the
previous count is 0.  JavaScript numbers are modelled as rationals, on which
the integer counts and this computation embed exactly. -/
def calculateTrend (current previous : ℚ) : ℚ :=
  if previous = 0 then 0 else (current - previous) / previous * 100

/-- One dashboard metric: a rendered value and a trend. -/
structure Metric where
  value : Str
  trend : ℚ
deriving DecidableEq

/-- The four dashboard metrics. -/
structure DashboardMetrics where
  totalNews : Metric
  totalLikes : Metric
  totalReaders : Metric
  newComments : Metric
deriving DecidableEq

/-- The counts queried by `getDashboardData` before the metrics object is
assembled. -/
structure DashboardCounts where
  todayArticles : Nat
  yesterdayArticles : Nat
  todayNewComments : Nat
  yesterdayNewComments : Nat
  todayLikes : Nat
  yesterdayLikes : Nat
  totalArticles : Nat
  totalLikes : Nat
  totalReaders : Nat

/-- Assembly of the `metrics` object returned by `getDashboardData`
(`value: x.toString()` is the decimal rendering).  Note that the
`totalReaders` trend is computed from today's versus yesterday's article
counts, exactly as in the source. -/
def buildMetrics (c : DashboardCounts) : DashboardMetrics :=
  { totalNews :=
      { value := natDigits c.totalArticles,
        trend := calculateTrend c.todayArticles c.yesterdayArticles },
    totalLikes :=
      { value := natDigits c.totalLikes,
        trend := calculateTrend c.todayLikes c.yesterdayLikes },
    totalReaders :=
      { value := natDigits c.totalReaders,
        trend := calculateTrend c.todayArticles c.yesterdayArticles },
    newComments :=
      { value := natDigits c.todayNewComments,
        trend := calculateTrend c.todayNewComments c.yesterdayNewComments } }

/-- The external profile fields returned by the identity provider for one
user (each may be absent). -/
structure ClerkProfile where
  firstName : Option Str
  lastName : Option Str
  imageUrl : Option Str
deriving DecidableEq

/-- One audit-log row joined with its internal user (`include: user`). -/
structure LogEntry where
  id : Nat
  clerkId : Option Str
  action : Str
  description : Str
  createdAt : Nat
deriving DecidableEq

/-- One formatted activity of the dashboard's recent-activity feed. -/
structure Activity where
  id : Nat
  clerkId : Option Str
  firstName : Option Str
  lastName : Option Str
  imageUrl : Option Str
  activity : Str
  date : Nat
  description : Str
deriving DecidableEq

/-- JavaScript `x || null` on a nullable string: the empty string is falsy
and collapses to null. -/
def orNull (x : Option Str) : Option Str :=
  match x with
  | none => none
  | some s => if s = [] then none else some s

/-- JS `clerkUser?.f || null`: project a profile field through an optional
profile. -/
def profileField (cu : Option ClerkProfile) (f : ClerkProfile → Option Str) : Option Str :=
  match cu with
  | none => none
  | some p => orNull (f p)

/-- Resolution of one audit-log entry into an activity.  `lookup` models the
per-entry `getClerkUser` call (`Except` for a rejected promise); on failure
the entry is still emitted, with null profile fields.  `fmt` models
`formatLogAction` (a pure total lookup table defined in the logging module,
passed here as a parameter). -/
def resolveActivity (lookup : Option Str → Except String (Option ClerkProfile))
    (fmt : Str → Str) (log : LogEntry) : Activity :=
  match lookup log.clerkId with
  | .ok cu =>
    { id := log.id, clerkId := log.clerkId,
      firstName := profileField cu (·.firstName),
      lastName := profileField cu (·.lastName),
      imageUrl := profileField cu (·.imageUrl),
      activity := fmt log.action, date := log.createdAt,
      description := log.description }
  | .error _ =>
    { id := log.id, clerkId := log.clerkId,
      firstName := none, lastName := none, imageUrl := none,
      activity := fmt log.action, date := log.createdAt,
      description := log.description }

/-- The dashboard's activity feed: every recent log entry is resolved,
independently of the others (`Promise.all` over a total per-entry
function). -/
def activitiesOf (lookup : Option Str → Except String (Option ClerkProfile))
    (fmt : Str → Str) (logs : List LogEntry) : List Activity :=
  logs.map (resolveActivity lookup fmt)

/-- Id and popularity score of the news interaction row of item `n` (the row
`addComment` locates with `findFirst`). -/
def newsScoreOf (db : DB) (n : Nat) : Option (Nat × Int) :=
  (db.newsInteractions.find? (fun x => x.newsId == n)).map
    (fun x => (x.id, x.popularityScore))

/-- Id and contribution score of the user interaction row of user `uid`. -/
def userScoreOf (db : DB) (uid : Nat) : Option (Nat × Int) :=
  (db.userInteractions.find? (fun x => x.userId == uid)).map
    (fun x => (x.id, x.contributionScore))

/-! ## Facts about decimal digit strings -/

theorem decChar_isDigit {d : Nat} (h : d < 10) : (decChar d).isDigit = true := by
  interval_cases d <;> decide

theorem digitVal_decChar {d : Nat} (h : d < 10) : digitVal (decChar d) = d := by
  interval_cases d <;> decide

theorem natDigitsAux_isDigit :
    ∀ fuel n, n < fuel → ∀ c ∈ natDigitsAux fuel n, c.isDigit = true := by
  intro fuel
  induction fuel with
  | zero => intro n h; omega
  | succ f ih =>
    intro n h c hc
    by_cases h10 : n < 10
    · simp only [natDigitsAux, if_pos h10, List.mem_singleton] at hc
      subst hc
      exact decChar_isDigit h10
    · simp only [natDigitsAux, if_neg h10, List.mem_append, List.mem_singleton] at hc
      rcases hc with hc | hc
      · exact ih (n / 10) (by omega) c hc
      · subst hc
        exact decChar_isDigit (Nat.mod_lt _ (by omega))

theorem natDigits_isDigit (n : Nat) : ∀ c ∈ natDigits n, c.isDigit = true :=
  natDigitsAux_isDigit (n + 1) n (Nat.lt_succ_self n)

theorem natDigitsAux_foldl :
    ∀ fuel n a, n < fuel →
      List.foldl (fun a c => a * 10 + digitVal c) a (natDigitsAux fuel n)
        = a * 10 ^ (natDigitsAux fuel n).length + n := by
  intro fuel
  induction fuel with
  | zero => intro n a h; omega
  | succ f ih =>
    intro n a h
    by_cases h10 : n < 10
    · simp only [natDigitsAux, if_pos h10, List.foldl_cons, List.foldl_nil,
        List.length_singleton, pow_one]
      rw [digitVal_decChar h10]
    · have hdiv : n / 10 < f := by
        have := Nat.div_lt_self (by omega : 0 < n) (by omega : 1 < 10)
        omega
      simp only [natDigitsAux, if_neg h10, List.foldl_append, List.foldl_cons,
        List.foldl_nil, List.length_append, List.length_singleton]
      rw [ih (n / 10) a hdiv, digitVal_decChar (Nat.mod_lt _ (by omega))]
      rw [pow_succ]
      have := Nat.div_add_mod n 10
      ring_nf
      omega

theorem digitsToNat_natDigits (n : Nat) : digitsToNat (natDigits n) = n := by
  unfold digitsToNat natDigits
  rw [natDigitsAux_foldl (n + 1) n 0 (Nat.lt_succ_self n)]
  simp

theorem natDigitsAux_length_le :
    ∀ fuel n k, n < fuel → n < 10 ^ k → 1 ≤ k → (natDigitsAux fuel n).length ≤ k := by
  intro fuel
  induction fuel with
  | zero => intro n k h; omega
  | succ f ih =>
    intro n k h hk h1
    by_cases h10 : n < 10
    · simp only [natDigitsAux, if_pos h10, List.length_singleton]
      exact h1
    · have hk2 : 2 ≤ k := by
        by_contra hlt
        have : k = 1 := by omega
        subst this
        simp at hk
        omega
      have hdiv : n / 10 < f := by
        have := Nat.div_lt_self (by omega : 0 < n) (by omega : 1 < 10)
        omega
      have hdivk : n / 10 < 10 ^ (k - 1) := by
        have hmul : n < 10 * 10 ^ (k - 1) := by
          have : 10 * 10 ^ (k - 1) = 10 ^ k := by
            rw [← pow_succ']
            congr 1
            omega
          omega
        exact Nat.div_lt_of_lt_mul hmul
      simp only [natDigitsAux, if_neg h10, List.length_append, List.length_singleton]
      have := ih (n / 10) (k - 1) hdiv hdivk (by omega)
      omega

theorem natDigits_length_le {n k : Nat} (hk : n < 10 ^ k) (h1 : 1 ≤ k) :
    (natDigits n).length ≤ k :=
  natDigitsAux_length_le (n + 1) n k (Nat.lt_succ_self n) hk h1

/-! ## The trailing numeric suffix of a candidate -/

theorem takeWhile_append_all {p : Char → Bool} :
    ∀ (l : Str) (b : Char) (r : Str), (∀ a ∈ l, p a = true) → p b = false →
      (l ++ b :: r).takeWhile p = l := by
  intro l b r hl hb
  induction l with
  | nil => simp [List.takeWhile, hb]
  | cons x xs ih =>
    have hx : p x = true := hl x (List.mem_cons_self x xs)
    simp only [List.cons_append, List.takeWhile, hx, List.append_eq]
    rw [ih (fun a ha => hl a (List.mem_cons_of_mem x ha))]

theorem trailingDigits_mkCand (t : Str) (c : Nat) :
    trailingDigits (PathGenerator.mkCand t c) = natDigits c := by
  unfold trailingDigits PathGenerator.mkCand
  rw [List.reverse_append, List.reverse_cons, List.append_assoc, List.singleton_append]
  rw [takeWhile_append_all ((natDigits c).reverse) '-' (t.reverse)
    (fun a ha => natDigits_isDigit c a (List.mem_reverse.mp ha)) (by decide)]
  exact List.reverse_reverse _

theorem trailVal_mkCand (t : Str) (c : Nat) :
    trailVal (PathGenerator.mkCand t c) = c := by
  unfold trailVal
  rw [trailingDigits_mkCand, digitsToNat_natDigits]

/-! ## Counting the collisions still available to the loop -/

theorem filter_length_mono {α : Type} (p q : α → Bool) :
    ∀ l : List α, (∀ x, q x = true → p x = true) →
      (List.filter q l).length ≤ (List.filter p l).length := by
  intro l h
  induction l with
  | nil => simp
  | cons x xs ih =>
    by_cases hq : q x = true
    · simp [List.filter, hq, h x hq]
      omega
    · simp only [Bool.not_eq_true] at hq
      cases hp : p x <;> simp [List.filter, hq, hp] <;> omega

theorem filter_length_strict {α : Type} (p q : α → Bool) :
    ∀ l : List α, ∀ a ∈ l, p a = true → q a = false →
      (∀ x, q x = true → p x = true) →
      (List.filter q l).length < (List.filter p l).length := by
  intro l
  induction l with
  | nil => intro a ha; exact absurd ha (List.not_mem_nil a)
  | cons x xs ih =>
    intro a ha hp hq himp
    rcases List.mem_cons.mp ha with rfl | ha'
    · simp only [List.filter, hp, hq]
      have := filter_length_mono p q xs himp
      simp only [List.length_cons]
      omega
    · have := ih a ha' hp hq himp
      cases hqx : q x
      · cases hpx : p x <;> simp [List.filter, hqx, hpx] <;> omega
      · simp [List.filter, hqx, himp x hqx]
        omega

theorem collCount_mono (used : List Str) {c c' : Nat} (h : c ≤ c') :
    collCount used c' ≤ collCount used c := by
  apply filter_length_mono
  intro x hx
  simp only [decide_eq_true_eq] at hx ⊢
  omega

theorem collCount_strict (used : List Str) (t : Str) (c : Nat)
    (hmem : PathGenerator.mkCand t c ∈ used) :
    collCount used (c + 1) < collCount used c := by
  apply filter_length_strict _ _ used (PathGenerator.mkCand t c) hmem
  · simp [trailVal_mkCand]
  · simp [trailVal_mkCand]
  · intro x hx
    simp only [decide_eq_true_eq] at hx ⊢
    omega

/-! ## The disambiguation loop exits before its fuel runs out

The fuel `2 * used.length + 3` of `makeUnique` is enough: each colliding
iteration consumes an entry of `used` whose trailing numeric suffix equals
the candidate's counter, and the counter only grows, so at most
`2 * used.length` colliding iterations can occur (the factor 2 accounts for
the iteration wasted after each overflow re-truncation, which re-tests the
same candidate).  Consequently the loop always returns a path that is not in
`used`. -/

theorem makeUniqueLoop_not_mem :
    ∀ (fuel : Nat) (used : List Str) (maxLen : Nat) (path : Str) (c : Nat) (fp : Str),
      ((c = 1 ∧ 2 * collCount used 1 + 3 ≤ fuel) ∨
       (∃ t c0, fp = PathGenerator.mkCand t c0 ∧ c = c0 + 1 ∧
          2 * collCount used c0 + 1 ≤ fuel) ∨
       (∃ t, fp = PathGenerator.mkCand t c ∧ 2 * collCount used c + 2 ≤ fuel)) →
      PathGenerator.makeUniqueLoop used maxLen path c fp fuel ∉ used := by
  intro fuel
  induction fuel with
  | zero =>
    intro used maxLen path c fp h
    rcases h with ⟨_, h⟩ | ⟨t, c0, _, _, h⟩ | ⟨t, _, h⟩ <;> omega
  | succ f ih =>
    intro used maxLen path c fp h
    by_cases hmem : fp ∈ used
    · simp only [PathGenerator.makeUniqueLoop, if_pos hmem]
      by_cases hover : maxLen < (PathGenerator.mkCand path c).length
      · simp only [if_pos hover]
        -- overflow branch: the new final path is a candidate at counter c+1
        rcases h with ⟨hc1, hf⟩ | ⟨t, c0, hfp, hcc, hf⟩ | ⟨t, hfp, hf⟩
        · -- initial phase
          subst hc1
          apply ih
          right; right
          refine ⟨_, rfl, ?_⟩
          have := collCount_mono used (by omega : (1 : Nat) ≤ 1 + 1)
          omega
        · -- normal phase: fp = mkCand t c0, c = c0 + 1
          subst hcc
          have hst := collCount_strict used t c0 (hfp ▸ hmem)
          apply ih
          right; right
          refine ⟨_, rfl, ?_⟩
          have := collCount_mono used (by omega : c0 + 1 ≤ c0 + 1 + 1)
          omega
        · -- post-overflow phase: fp = mkCand t c
          have hst := collCount_strict used t c (hfp ▸ hmem)
          apply ih
          right; right
          refine ⟨_, rfl, ?_⟩
          omega
      · simp only [if_neg hover]
        -- no overflow: the new final path is a candidate at counter c
        rcases h with ⟨hc1, hf⟩ | ⟨t, c0, hfp, hcc, hf⟩ | ⟨t, hfp, hf⟩
        · subst hc1
          apply ih
          right; left
          exact ⟨path, 1, rfl, rfl, by omega⟩
        · subst hcc
          have hst := collCount_strict used t c0 (hfp ▸ hmem)
          apply ih
          right; left
          refine ⟨path, c0 + 1, rfl, rfl, ?_⟩
          omega
        · have hst := collCount_strict used t c (hfp ▸ hmem)
          apply ih
          right; left
          exact ⟨path, c, rfl, rfl, by omega⟩
    · simpa only [PathGenerator.makeUniqueLoop, if_neg hmem] using hmem

theorem length_filter_le' {α : Type} (p : α → Bool) (l : List α) :
    (List.filter p l).length ≤ l.length := List.length_filter_le p l

theorem makeUnique_not_mem (used : List Str) (maxLen : Nat) (base : Str) :
    PathGenerator.makeUnique used maxLen base ∉ used := by
  apply makeUniqueLoop_not_mem
  left
  refine ⟨rfl, ?_⟩
  have := length_filter_le' (fun u => decide (1 ≤ trailVal u)) used
  unfold collCount
  omega

/-! ## Length bound for the produced paths -/

theorem makeUniqueLoop_length_le :
    ∀ (fuel : Nat) (used : List Str) (maxLen : Nat) (path : Str) (c : Nat) (fp : Str),
      fp.length ≤ maxLen →
      (∀ k, k < c + fuel → (natDigits (k + 1)).length + 1 ≤ maxLen) →
      (PathGenerator.makeUniqueLoop used maxLen path c fp fuel).length ≤ maxLen := by
  intro fuel
  induction fuel with
  | zero => intro used maxLen path c fp hfp _; simpa [PathGenerator.makeUniqueLoop] using hfp
  | succ f ih =>
    intro used maxLen path c fp hfp hdig
    by_cases hmem : fp ∈ used
    · simp only [PathGenerator.makeUniqueLoop, if_pos hmem]
      by_cases hover : maxLen < (PathGenerator.mkCand path c).length
      · simp only [if_pos hover]
        apply ih
        · have hsuf : ('-' :: natDigits (c + 1)).length ≤ maxLen := by
            have := hdig c (by omega)
            simp only [List.length_cons]
            omega
          simp only [List.length_append, List.length_take, List.length_cons]
          simp only [List.length_cons] at hsuf
          omega
        · intro k hk
          exact hdig k (by omega)
      · simp only [if_neg hover]
        apply ih
        · omega
        · intro k hk
          exact hdig k (by omega)
    · simpa only [PathGenerator.makeUniqueLoop, if_neg hmem] using hfp

theorem makeUnique_length_le (used : List Str) (maxLen : Nat) (base : Str)
    (h3 : 3 ≤ maxLen) (hsmall : 2 * used.length + 4 < 10 ^ (maxLen - 1)) :
    (PathGenerator.makeUnique used maxLen base).length ≤ maxLen := by
  unfold PathGenerator.makeUnique
  apply makeUniqueLoop_length_le
  · by_cases h : maxLen < base.length
    · simp only [if_pos h, List.length_take]
      omega
    · simp only [if_neg h]
      omega
  · intro k hk
    have hlen : (natDigits (k + 1)).length ≤ maxLen - 1 := by
      apply natDigits_length_le
      · omega
      · omega
    omega

/-! ## Loop exit and single-step lemmas -/

theorem makeUniqueLoop_exit (used : List Str) (maxLen : Nat) (path : Str) (c : Nat)
    (fp : Str) (fuel : Nat) (h : fp ∉ used) :
    PathGenerator.makeUniqueLoop used maxLen path c fp fuel = fp := by
  cases fuel with
  | zero => rfl
  | succ f => simp [PathGenerator.makeUniqueLoop, h]

theorem makeUniqueLoop_step (used : List Str) (maxLen : Nat) (path : Str) (c : Nat)
    (fp : Str) (fuel : Nat) (h : fp ∈ used) :
    PathGenerator.makeUniqueLoop used maxLen path c fp (fuel + 1) =
      if maxLen < (PathGenerator.mkCand path c).length then
        PathGenerator.makeUniqueLoop used maxLen
          (path.take (maxLen - ('-' :: natDigits (c + 1)).length)) (c + 1)
          (path.take (maxLen - ('-' :: natDigits (c + 1)).length) ++ '-' :: natDigits (c + 1))
          fuel
      else
        PathGenerator.makeUniqueLoop used maxLen path (c + 1) (PathGenerator.mkCand path c) fuel := by
  simp [PathGenerator.makeUniqueLoop, h]

theorem makeUnique_of_not_used (used : List Str) (maxLen : Nat) (base : Str)
    (hlen : ¬ maxLen < base.length) (h : base ∉ used) :
    PathGenerator.makeUnique used maxLen base = base := by
  unfold PathGenerator.makeUnique
  rw [if_neg hlen]
  exact makeUniqueLoop_exit _ _ _ _ _ _ h

/-! ## Batch generation -/

theorem generatePath_fst_not_mem (g : PathGenerator) (t : Str) :
    (g.generatePath t).1 ∉ g.existingPaths :=
  makeUnique_not_mem g.existingPaths g.maxLength (PathGenerator.slugify t)

theorem not_mem_generateAll :
    ∀ (titles : List Str) (g : PathGenerator) (s : Str),
      s ∈ g.existingPaths → s ∉ g.generateAll titles := by
  intro titles
  induction titles with
  | nil => intro g s _; simp [PathGenerator.generateAll]
  | cons t ts ih =>
    intro g s hs hmem
    simp only [PathGenerator.generateAll, List.mem_cons] at hmem
    rcases hmem with rfl | hmem
    · exact generatePath_fst_not_mem g t hs
    · exact ih _ s (List.mem_cons_of_mem _ hs) hmem

theorem generateAll_nodup_len :
    ∀ (titles : List Str) (g : PathGenerator),
      g.maxLength = 100 →
      2 * (g.existingPaths.length + titles.length) + 4 < 10 ^ 99 →
      (g.generateAll titles).Nodup ∧ ∀ s ∈ g.generateAll titles, s.length ≤ 100 := by
  intro titles
  induction titles with
  | nil => intro g _ _; simp [PathGenerator.generateAll]
  | cons t ts ih =>
    intro g hmax hsize
    have hlen1 : ((g.generatePath t).1).length ≤ 100 := by
      have := makeUnique_length_le g.existingPaths g.maxLength
        (PathGenerator.slugify t) (by omega) ?_
      · exact hmax ▸ this
      · rw [hmax]
        simp only [List.length_cons] at hsize ⊢
        omega
    have hrec := ih (g.generatePath t).2 hmax ?_
    · constructor
      · simp only [PathGenerator.generateAll, List.nodup_cons]
        constructor
        · exact not_mem_generateAll ts (g.generatePath t).2 _ (List.mem_cons_self _ _)
        · exact hrec.1
      · intro s hmem
        simp only [PathGenerator.generateAll, List.mem_cons] at hmem
        rcases hmem with rfl | hmem
        · exact hlen1
        · exact hrec.2 s hmem
    · simp only [PathGenerator.generatePath, List.length_cons] at *
      omega

/-! ## Effect of the comment transactions on the tracked scores -/

theorem find?_map_pred {α : Type} (p : α → Bool) (f : α → α)
    (h : ∀ x, p (f x) = p x) :
    ∀ l : List α, List.find? p (l.map f) = Option.map f (List.find? p l) := by
  intro l
  induction l with
  | nil => rfl
  | cons x xs ih =>
    cases hp : p x with
    | false =>
      have : p (f x) = false := by rw [h x, hp]
      simp [List.find?, hp, this, ih]
    | true =>
      have : p (f x) = true := by rw [h x, hp]
      simp [List.find?, hp, this]

theorem newsScoreOf_bumpNews (db : DB) (n i : Nat) (d : Int) (ni : NewsInteraction)
    (hfind : db.newsInteractions.find? (fun x => x.newsId == n) = some ni)
    (hid : ni.id = i) :
    newsScoreOf (bumpNews db i d) n = some (ni.id, ni.popularityScore + d) := by
  unfold newsScoreOf bumpNews
  rw [find?_map_pred _ _ ?_ , hfind]
  · simp [hid]
  · intro x
    by_cases hx : x.id == i <;> simp [hx]

theorem userScoreOf_bumpUser (db : DB) (uid i : Nat) (d : Int) (ui : UserInteraction)
    (hfind : db.userInteractions.find? (fun x => x.userId == uid) = some ui)
    (hid : ui.id = i) :
    userScoreOf (bumpUser db i d) uid = some (ui.id, ui.contributionScore + d) := by
  unfold userScoreOf bumpUser
  rw [find?_map_pred _ _ ?_ , hfind]
  · simp [hid]
  · intro x
    by_cases hx : x.id == i <;> simp [hx]

theorem newsScoreOf_bumpUser (db : DB) (n i : Nat) (d : Int) :
    newsScoreOf (bumpUser db i d) n = newsScoreOf db n := rfl

theorem userScoreOf_bumpNews (db : DB) (uid i : Nat) (d : Int) :
    userScoreOf (bumpNews db i d) uid = userScoreOf db uid := rfl

theorem pairSteps_scores {u : UserRec} {n niId uiId : Nat} :
    ∀ {db : DB} {ops : List EngOp} {db' : DB},
      PairSteps u n niId uiId db ops db' →
      ∀ p q : Int,
        newsScoreOf db n = some (niId, p) →
        userScoreOf db u.id = some (uiId, q) →
        newsScoreOf db' n = some (niId, p + 2 * ((countAdd ops : Int) - (countDel ops : Int))) ∧
        userScoreOf db' u.id = some (uiId, q + 2 * ((countAdd ops : Int) - (countDel ops : Int))) := by
  intro db ops db' h
  induction h with
  | nil db =>
    intro p q hn hu
    simp only [countAdd, countDel, Nat.cast_zero]
    constructor
    · rw [hn]; norm_num
    · rw [hu]; norm_num
  | add db db1 db2 text ops hstep hrest ih =>
    intro p q hn hu
    -- extract the rows found by the invariant
    rcases hfind : db.newsInteractions.find? (fun x => x.newsId == n) with _ | ni
    · rw [newsScoreOf, hfind] at hn; simp at hn
    rcases hufind : db.userInteractions.find? (fun x => x.userId == u.id) with _ | ui
    · rw [userScoreOf, hufind] at hu; simp at hu
    rw [newsScoreOf, hfind] at hn
    rw [userScoreOf, hufind] at hu
    simp only [Option.map_some', Option.some.injEq, Prod.mk.injEq] at hn hu
    -- addComment succeeded: identify the produced state
    unfold addComment at hstep
    by_cases hlt : text.length < 1
    · rw [if_pos hlt] at hstep; exact absurd hstep (by simp)
    rw [if_neg hlt] at hstep
    by_cases hgt : 500 < text.length
    · rw [if_pos hgt] at hstep; exact absurd hstep (by simp)
    rw [if_neg hgt] at hstep
    dsimp only at hstep
    rw [hfind] at hstep
    dsimp only at hstep
    rw [hufind] at hstep
    dsimp only at hstep
    simp only [Except.ok.injEq] at hstep
    -- the state after the transaction keeps the invariant with both scores +2
    have hn1 : newsScoreOf db1 n = some (niId, p + 2) := by
      rw [← hstep, newsScoreOf_bumpUser]
      have := newsScoreOf_bumpNews
        { db with
          comments := db.comments ++
            [{ id := db.nextCommentId, text := text,
               newsInteractionId := ni.id, userInteractionId := ui.id }],
          nextCommentId := db.nextCommentId + 1 } n ni.id 2 ni hfind rfl
      rw [this, hn.1, hn.2]
    have hu1 : userScoreOf db1 u.id = some (uiId, q + 2) := by
      rw [← hstep]
      have := userScoreOf_bumpUser
        (bumpNews
          { db with
            comments := db.comments ++
              [{ id := db.nextCommentId, text := text,
                 newsInteractionId := ni.id, userInteractionId := ui.id }],
            nextCommentId := db.nextCommentId + 1 } ni.id 2) u.id ui.id 2 ui hufind rfl
      rw [this, hu.1, hu.2]
    have hrec := ih (p + 2) (q + 2) hn1 hu1
    have harith : ∀ r : Int,
        r + 2 + 2 * ((countAdd ops : Int) - (countDel ops : Int))
          = r + 2 * ((countAdd (EngOp.add text :: ops) : Int)
              - (countDel (EngOp.add text :: ops) : Int)) := by
      intro r
      simp only [countAdd, countDel]
      push_cast
      ring
    rw [← harith p, ← harith q]
    exact hrec
  | del db db1 db2 cid c ops hstep hcfind hcn hcu hrest ih =>
    intro p q hn hu
    rcases hfind : db.newsInteractions.find? (fun x => x.newsId == n) with _ | ni
    · rw [newsScoreOf, hfind] at hn; simp at hn
    rcases hufind : db.userInteractions.find? (fun x => x.userId == u.id) with _ | ui
    · rw [userScoreOf, hufind] at hu; simp at hu
    rw [newsScoreOf, hfind] at hn
    rw [userScoreOf, hufind] at hu
    simp only [Option.map_some', Option.some.injEq, Prod.mk.injEq] at hn hu
    -- deleteComment succeeded: identify the produced state
    unfold deleteComment at hstep
    dsimp only at hstep
    rw [hcfind] at hstep
    dsimp only at hstep
    rcases howner : db.userInteractions.find? (fun x => x.id == c.userInteractionId)
        with _ | owner
    · rw [howner] at hstep; exact absurd hstep (by simp)
    rw [howner] at hstep
    dsimp only at hstep
    by_cases hown : owner.userId ≠ u.id
    · rw [if_pos hown] at hstep; exact absurd hstep (by simp)
    rw [if_neg hown] at hstep
    simp only [Except.ok.injEq] at hstep
    have hn1 : newsScoreOf db1 n = some (niId, p + (-2)) := by
      rw [← hstep, newsScoreOf_bumpUser]
      have := newsScoreOf_bumpNews
        { db with comments := db.comments.filter (fun x => x.id != cid) }
        n c.newsInteractionId (-2) ni hfind (by rw [hcn]; exact hn.1)
      rw [this, hn.1, hn.2]
    have hu1 : userScoreOf db1 u.id = some (uiId, q + (-2)) := by
      rw [← hstep]
      have := userScoreOf_bumpUser
        (bumpNews { db with comments := db.comments.filter (fun x => x.id != cid) }
          c.newsInteractionId (-2)) u.id c.userInteractionId (-2) ui hufind
          (by rw [hcu]; exact hu.1)
      rw [this, hu.1, hu.2]
    have hrec := ih (p + (-2)) (q + (-2)) hn1 hu1
    have harith : ∀ r : Int,
        r + (-2) + 2 * ((countAdd ops : Int) - (countDel ops : Int))
          = r + 2 * ((countAdd (EngOp.del cid :: ops) : Int)
              - (countDel (EngOp.del cid :: ops) : Int)) := by
      intro r
      simp only [countAdd, countDel]
      push_cast
      ring
    rw [← harith p, ← harith q]
    exact hrec

/-! ## Progression of the numeric suffix through successive collisions -/

theorem natDigitsAux_congr :
    ∀ f1 f2 n, n < f1 → n < f2 → natDigitsAux f1 n = natDigitsAux f2 n := by
  intro f1
  induction f1 with
  | zero => intro f2 n h; omega
  | succ g ih =>
    intro f2 n h1 h2
    cases f2 with
    | zero => omega
    | succ g2 =>
      by_cases h10 : n < 10
      · simp [natDigitsAux, h10]
      · simp only [natDigitsAux, if_neg h10]
        rw [ih g2 (n / 10) (by omega) (by omega)]

theorem natDigits_step (k : Nat) (hk : 10 ≤ k) :
    natDigits k = natDigits (k / 10) ++ [decChar (k % 10)] := by
  unfold natDigits
  have h1 : natDigitsAux (k + 1) k
      = natDigitsAux k (k / 10) ++ [decChar (k % 10)] := by
    simp [natDigitsAux, Nat.not_lt.mpr hk]
  have hdiv : k / 10 < k := Nat.div_lt_self (by omega) (by omega)
  rw [h1, natDigitsAux_congr k (k / 10 + 1) (k / 10) (by omega) (by omega)]

theorem natDigits_length_pos (n : Nat) : 1 ≤ (natDigits n).length := by
  unfold natDigits
  by_cases h : n < 10 <;> simp [natDigitsAux, h]

theorem natDigits_length_mono : ∀ k j, j ≤ k → (natDigits j).length ≤ (natDigits k).length := by
  intro k
  induction k using Nat.strong_induction_on with
  | _ k ih =>
    intro j hjk
    by_cases hk : k < 10
    · have hj : j < 10 := by omega
      unfold natDigits
      simp [natDigitsAux, hj, hk]
    · by_cases hj : j < 10
      · have h1 : (natDigits j).length = 1 := by
          unfold natDigits
          simp [natDigitsAux, hj]
        rw [h1]
        exact natDigits_length_pos k
      · rw [natDigits_step j (by omega), natDigits_step k (by omega)]
        simp only [List.length_append, List.length_singleton]
        have := ih (k / 10) (Nat.div_lt_self (by omega) (by omega))
          (j / 10) (Nat.div_le_div_right hjk)
        omega

/-- If the current final path collides and the next `d` suffixed candidates
`path-c, …, path-(c+d-1)` are all used while none of them overflows the
maximum length, the loop walks the counter up one per collision and returns
the first free candidate `path-(c+d)`. -/
theorem makeUniqueLoop_progression :
    ∀ (d : Nat) (used : List Str) (maxLen : Nat) (path : Str) (c : Nat) (fp : Str)
      (fuel : Nat),
      fp ∈ used →
      (∀ j, c ≤ j → j < c + d → PathGenerator.mkCand path j ∈ used) →
      (∀ j, c ≤ j → j ≤ c + d → ¬ maxLen < (PathGenerator.mkCand path j).length) →
      PathGenerator.mkCand path (c + d) ∉ used →
      d + 1 ≤ fuel →
      PathGenerator.makeUniqueLoop used maxLen path c fp fuel
        = PathGenerator.mkCand path (c + d) := by
  intro d
  induction d with
  | zero =>
    intro used maxLen path c fp fuel hfp hmem hlen hfree hfuel
    cases fuel with
    | zero => omega
    | succ f =>
      rw [makeUniqueLoop_step _ _ _ _ _ _ hfp]
      rw [if_neg (hlen c le_rfl (by omega))]
      exact makeUniqueLoop_exit _ _ _ _ _ _ hfree
  | succ d ih =>
    intro used maxLen path c fp fuel hfp hmem hlen hfree hfuel
    cases fuel with
    | zero => omega
    | succ f =>
      rw [makeUniqueLoop_step _ _ _ _ _ _ hfp]
      rw [if_neg (hlen c le_rfl (by omega))]
      have hck : c + (d + 1) = c + 1 + d := by omega
      rw [hck]
      exact ih used maxLen path (c + 1) (PathGenerator.mkCand path c) f
        (hmem c le_rfl (by omega))
        (fun j h1 h2 => hmem j (by omega) (by omega))
        (fun j h1 h2 => hlen j (by omega) (by omega))
        (hck ▸ hfree)
        (by omega)

/-! ## The claims -/

/-- C1: for every sequence of N successful `addComment` calls and M
successful `deleteComment` calls on one news item by one user, the item's
popularity score and the user's contribution score each end exactly
`2 × (N − M)` above their pre-existing values: each created comment adds 2
to both, each deleted comment removes 2 from both, exactly once. -/
theorem claim_C1_score_symmetry {u : UserRec} {n : Nat} {db0 db1 : DB}
    {ops : List EngOp} {ni0 : NewsInteraction} {ui0 : UserInteraction}
    (hn : db0.newsInteractions.find? (fun x => x.newsId == n) = some ni0)
    (hu : db0.userInteractions.find? (fun x => x.userId == u.id) = some ui0)
    (hsteps : PairSteps u n ni0.id ui0.id db0 ops db1) :
    newsScoreOf db1 n
      = some (ni0.id, ni0.popularityScore
          + 2 * ((countAdd ops : Int) - (countDel ops : Int))) ∧
    userScoreOf db1 u.id
      = some (ui0.id, ui0.contributionScore
          + 2 * ((countAdd ops : Int) - (countDel ops : Int))) := by
  apply pairSteps_scores hsteps
  · rw [newsScoreOf, hn]; rfl
  · rw [userScoreOf, hu]; rfl

theorem claim_C1_witness :
    ∃ db1, PairSteps (⟨5⟩ : UserRec) 7 1 2
        ⟨[⟨1, 7, 0⟩], [⟨2, 5, 0⟩], [], 0⟩
        [EngOp.add (strL "hi"), EngOp.add (strL "yo"), EngOp.del 0] db1 ∧
      newsScoreOf db1 7 = some (1, (0 : Int) + 2 * ((2 : Int) - (1 : Int))) ∧
      userScoreOf db1 5 = some (2, (0 : Int) + 2 * ((2 : Int) - (1 : Int))) := by
  have hsteps : PairSteps (⟨5⟩ : UserRec) 7 1 2
      ⟨[⟨1, 7, 0⟩], [⟨2, 5, 0⟩], [], 0⟩
      [EngOp.add (strL "hi"), EngOp.add (strL "yo"), EngOp.del 0]
      ⟨[⟨1, 7, 2⟩], [⟨2, 5, 2⟩], [⟨1, strL "yo", 1, 2⟩], 2⟩ :=
    PairSteps.add _ _ _ _ _ rfl
      (PairSteps.add _ _ _ _ _ rfl
        (PairSteps.del _ _ _ _ _ _ rfl rfl rfl rfl (PairSteps.nil _)))
  refine ⟨_, hsteps, ?_⟩
  exact @claim_C1_score_symmetry ⟨5⟩ 7 ⟨[⟨1, 7, 0⟩], [⟨2, 5, 0⟩], [], 0⟩
    ⟨[⟨1, 7, 2⟩], [⟨2, 5, 2⟩], [⟨1, strL "yo", 1, 2⟩], 2⟩
    [EngOp.add (strL "hi"), EngOp.add (strL "yo"), EngOp.del 0]
    ⟨1, 7, 0⟩ ⟨2, 5, 0⟩ rfl rfl hsteps

/-- C2: over one generation batch (repeated `generatePath` calls on one
`PathGenerator` instance), no two calls return the same slug — even for
equal or colliding titles — and every returned slug has length at most 100.
(The size hypothesis keeps the disambiguation counter below `10 ^ 99`, where
its decimal suffix could no longer fit the 100-character budget; it is
satisfied by any physically representable path set.) -/
theorem claim_C2_batch_injective (g : PathGenerator) (titles : List Str)
    (hmax : g.maxLength = 100)
    (hsize : 2 * (g.existingPaths.length + titles.length) + 4 < 10 ^ 99) :
    (g.generateAll titles).Nodup ∧ ∀ s ∈ g.generateAll titles, s.length ≤ 100 :=
  generateAll_nodup_len titles g hmax hsize

theorem claim_C2_witness :
    ((PathGenerator.new [strL "breaking-news"]).generateAll
        [strL "Breaking News", strL "Breaking News"]).Nodup ∧
    ∀ s ∈ (PathGenerator.new [strL "breaking-news"]).generateAll
        [strL "Breaking News", strL "Breaking News"], s.length ≤ 100 :=
  claim_C2_batch_injective (PathGenerator.new [strL "breaking-news"])
    [strL "Breaking News", strL "Breaking News"] rfl (by decide)

/-- C3: deleting a comment as an authenticated user who is not its author
fails with the `Unauthorized` error, and the persisted state — the comment
row and both scores included — is unchanged (the ownership check runs before
the transaction). -/
theorem claim_C3_delete_nonauthor (req : UserRec) (cid : Nat) (db : DB)
    (c : CommentRec) (owner : UserInteraction)
    (hc : db.comments.find? (fun x => x.id == cid) = some c)
    (howner : db.userInteractions.find? (fun x => x.id == c.userInteractionId) = some owner)
    (hne : owner.userId ≠ req.id) :
    deleteComment (some req) cid db = .error "Unauthorized" ∧
    applyDelete (some req) cid db = db := by
  have hdel : deleteComment (some req) cid db = .error "Unauthorized" := by
    unfold deleteComment
    dsimp only
    rw [hc]
    dsimp only
    rw [howner]
    dsimp only
    rw [if_pos hne]
  refine ⟨hdel, ?_⟩
  unfold applyDelete
  rw [hdel]

theorem claim_C3_witness :
    deleteComment (some (⟨9⟩ : UserRec)) 0
        ⟨[⟨1, 7, 2⟩], [⟨2, 5, 2⟩], [⟨0, strL "hi", 1, 2⟩], 1⟩
      = .error "Unauthorized" ∧
    applyDelete (some (⟨9⟩ : UserRec)) 0
        ⟨[⟨1, 7, 2⟩], [⟨2, 5, 2⟩], [⟨0, strL "hi", 1, 2⟩], 1⟩
      = ⟨[⟨1, 7, 2⟩], [⟨2, 5, 2⟩], [⟨0, strL "hi", 1, 2⟩], 1⟩ :=
  claim_C3_delete_nonauthor ⟨9⟩ 0 _ ⟨0, strL "hi", 1, 2⟩ ⟨2, 5, 2⟩ rfl rfl (by decide)

/-- C4 counterexample: the claim predicts that a colliding base slug gets the
suffix `-1` first.  For a colliding base slug of exactly 100 characters the
candidate `base + "-1"` overflows the maximum length, the counter is bumped
before the re-truncated suffix is built, and the generator returns the
98-character truncation with suffix `-2`; no `-1` candidate is ever
returned, so the numeric suffix of the first produced slug is 2, not 1. -/
theorem claim_C4_counterexample :
    PathGenerator.makeUnique [List.replicate 100 'a'] 100 (List.replicate 100 'a')
      = List.replicate 98 'a' ++ ['-', '2'] ∧
    trailVal (PathGenerator.makeUnique [List.replicate 100 'a'] 100
      (List.replicate 100 'a')) = 2 := by
  constructor <;> decide

/-- C4 (amended): on a collision the generator appends `-<n>` with `n`
starting at 1 and incrementing by 1 per further collision — for every `k`,
if the candidates `base-1, …, base-(k-1)` are all already used (and fit the
maximum length) while `base-k` is free, the generator returns `base-k`; but
when the suffixed candidate would exceed the maximum length, the counter is
incremented before the suffix is rebuilt, so the base is re-truncated to fit
the next suffix `-(n+1)` and the value `n` is skipped (first collision on an
overflowing base yields `-2`). -/
theorem claim_C4_amended (used : List Str) (maxLen : Nat) (base : Str)
    (hbase : base.length ≤ maxLen) (hmem : base ∈ used) :
    (∀ k, 1 ≤ k →
      (PathGenerator.mkCand base k).length ≤ maxLen →
      (∀ j, 1 ≤ j → j < k → PathGenerator.mkCand base j ∈ used) →
      PathGenerator.mkCand base k ∉ used →
      PathGenerator.makeUnique used maxLen base = PathGenerator.mkCand base k) ∧
    (maxLen < (PathGenerator.mkCand base 1).length →
      PathGenerator.mkCand (base.take (maxLen - 2)) 2 ∉ used →
      PathGenerator.makeUnique used maxLen base
        = PathGenerator.mkCand (base.take (maxLen - 2)) 2) := by
  have hnotlong : ¬ maxLen < base.length := by omega
  constructor
  · intro k hk hklen hcoll hfree
    unfold PathGenerator.makeUnique
    rw [if_neg hnotlong]
    -- the k - 1 colliding candidates are pairwise distinct members of `used`,
    -- so the loop fuel 2 * used.length + 3 covers the k iterations needed
    have hnd : ((List.range (k - 1)).map
        (fun i => PathGenerator.mkCand base (i + 1))).Nodup := by
      refine List.Nodup.map ?_ (List.nodup_range _)
      intro a b hab
      dsimp only at hab
      have ha := trailVal_mkCand base (a + 1)
      have hb := trailVal_mkCand base (b + 1)
      rw [hab] at ha
      omega
    have hsub : ((List.range (k - 1)).map
        (fun i => PathGenerator.mkCand base (i + 1))) ⊆ used := by
      intro x hx
      simp only [List.mem_map, List.mem_range] at hx
      obtain ⟨i, hi, rfl⟩ := hx
      exact hcoll (i + 1) (by omega) (by omega)
    have hcard : k - 1 ≤ used.length := by
      have := (hnd.subperm hsub).length_le
      simpa using this
    -- every candidate up to `base-k` fits, since digit strings grow monotonically
    have hfit : ∀ j, 1 ≤ j → j ≤ k → ¬ maxLen < (PathGenerator.mkCand base j).length := by
      intro j h1 h2
      have hm := natDigits_length_mono k j h2
      have e1 : (PathGenerator.mkCand base j).length
          = base.length + ((natDigits j).length + 1) := by
        simp [PathGenerator.mkCand]
      have e2 : (PathGenerator.mkCand base k).length
          = base.length + ((natDigits k).length + 1) := by
        simp [PathGenerator.mkCand]
      omega
    have h1mem : ∀ j, 1 ≤ j → j < 1 + (k - 1) → PathGenerator.mkCand base j ∈ used :=
      fun j hj1 hj2 => hcoll j hj1 (by omega)
    have h1len : ∀ j, 1 ≤ j → j ≤ 1 + (k - 1) →
        ¬ maxLen < (PathGenerator.mkCand base j).length :=
      fun j hj1 hj2 => hfit j hj1 (by omega)
    have h1free : PathGenerator.mkCand base (1 + (k - 1)) ∉ used := by
      rw [(by omega : 1 + (k - 1) = k)]
      exact hfree
    have hres := makeUniqueLoop_progression (k - 1) used maxLen base 1 base
      (2 * used.length + 3) hmem h1mem h1len h1free (by omega)
    rw [(by omega : (1 : Nat) + (k - 1) = k)] at hres
    exact hres
  · intro hover hnot
    unfold PathGenerator.makeUnique
    rw [if_neg hnotlong]
    rw [show 2 * used.length + 3 = (2 * used.length + 2) + 1 from rfl]
    rw [makeUniqueLoop_step _ _ _ _ _ _ hmem]
    rw [if_pos hover]
    have hsuf : ('-' :: natDigits (1 + 1)).length = 2 := rfl
    rw [hsuf]
    exact makeUniqueLoop_exit _ _ _ _ _ _ hnot

theorem claim_C4_amended_witness :
    PathGenerator.makeUnique [strL "breaking-news"] 100 (strL "breaking-news")
      = PathGenerator.mkCand (strL "breaking-news") 1 ∧
    PathGenerator.makeUnique [strL "b", strL "b-1", strL "b-2"] 100 (strL "b")
      = PathGenerator.mkCand (strL "b") 3 ∧
    PathGenerator.makeUnique [List.replicate 100 'a'] 100 (List.replicate 100 'a')
      = PathGenerator.mkCand ((List.replicate 100 'a').take 98) 2 := by
  refine ⟨?_, ?_, ?_⟩
  · exact (claim_C4_amended _ _ _ (by decide) (by decide)).1 1 (by decide) (by decide)
      (fun j h1 h2 => by omega) (by decide)
  · exact (claim_C4_amended _ _ _ (by decide) (by decide)).1 3 (by decide) (by decide)
      (fun j h1 h2 => by interval_cases j <;> decide) (by decide)
  · exact (claim_C4_amended _ _ _ (by decide) (by decide)).2 (by decide) (by decide)

/-- C5: updating a news item with a title whose slugified form equals the
item's own current slug leaves the slug unchanged — no `-1` suffix — because
the item's current path is removed from the collision set before the
generator runs.  (Current slugs always satisfy the length bound, as every
generated slug does.) -/
theorem claim_C5_update_same_slug (existingPaths : List Str) (cur : Str) (title : Str)
    (hslug : PathGenerator.slugify title = cur) (hlen : cur.length ≤ 100) :
    updateNewsPath existingPaths (some cur) title = cur := by
  unfold updateNewsPath PathGenerator.generatePath PathGenerator.new
  dsimp only
  rw [hslug]
  apply makeUnique_of_not_used
  · omega
  · intro hmem
    rw [List.mem_filter] at hmem
    simp at hmem

theorem claim_C5_witness :
    updateNewsPath [strL "hello-world", strL "other-news"]
        (some (strL "hello-world")) (strL "Hello World")
      = strL "hello-world" :=
  claim_C5_update_same_slug _ _ _ (by decide) (by decide)

/-- C6: the dashboard trend is `((today − yesterday) / yesterday) × 100`
whenever yesterday's count is nonzero, and 0 whenever yesterday's count is
0; in particular `today = 0, yesterday = 0` gives 0 (the guard prevents the
division by zero entirely, so no NaN or infinity can arise), and
`today = 10, yesterday = 5` gives exactly 100. -/
theorem claim_C6_trend :
    (∀ today yesterday : ℚ, yesterday ≠ 0 →
      calculateTrend today yesterday = (today - yesterday) / yesterday * 100) ∧
    (∀ today : ℚ, calculateTrend today 0 = 0) ∧
    calculateTrend 0 0 = 0 ∧
    calculateTrend 10 5 = 100 := by
  refine ⟨fun t y hy => ?_, fun t => ?_, ?_, ?_⟩
  · rw [calculateTrend, if_neg hy]
  · rw [calculateTrend, if_pos rfl]
  · rw [calculateTrend, if_pos rfl]
  · norm_num [calculateTrend]

theorem claim_C6_witness :
    calculateTrend 10 5 = ((10 : ℚ) - 5) / 5 * 100 :=
  claim_C6_trend.1 10 5 (by norm_num)

/-- C7: the dashboard activity feed is total over any batch of recent
audit-log entries: the output has one activity per entry regardless of
identity-provider failures; an entry whose profile lookup fails is emitted
with null name/avatar fields (its id and description intact), while an entry
whose lookup succeeds carries the resolved profile fields. -/
theorem claim_C7_activity_resilience
    (lookup : Option Str → Except String (Option ClerkProfile))
    (fmt : Str → Str) (logs : List LogEntry) :
    (activitiesOf lookup fmt logs).length = logs.length ∧
    ∀ i (h1 : i < logs.length) (h2 : i < (activitiesOf lookup fmt logs).length),
      (∀ e, lookup (logs.get ⟨i, h1⟩).clerkId = .error e →
        ((activitiesOf lookup fmt logs).get ⟨i, h2⟩).firstName = none ∧
        ((activitiesOf lookup fmt logs).get ⟨i, h2⟩).lastName = none ∧
        ((activitiesOf lookup fmt logs).get ⟨i, h2⟩).imageUrl = none ∧
        ((activitiesOf lookup fmt logs).get ⟨i, h2⟩).id = (logs.get ⟨i, h1⟩).id ∧
        ((activitiesOf lookup fmt logs).get ⟨i, h2⟩).description
          = (logs.get ⟨i, h1⟩).description) ∧
      (∀ cu, lookup (logs.get ⟨i, h1⟩).clerkId = .ok cu →
        ((activitiesOf lookup fmt logs).get ⟨i, h2⟩).firstName
            = profileField cu ClerkProfile.firstName ∧
        ((activitiesOf lookup fmt logs).get ⟨i, h2⟩).lastName
            = profileField cu ClerkProfile.lastName ∧
        ((activitiesOf lookup fmt logs).get ⟨i, h2⟩).imageUrl
            = profileField cu ClerkProfile.imageUrl) := by
  refine ⟨by simp [activitiesOf], ?_⟩
  intro i h1 h2
  have hg : (activitiesOf lookup fmt logs).get ⟨i, h2⟩
      = resolveActivity lookup fmt (logs.get ⟨i, h1⟩) := by
    simp [activitiesOf, List.get_eq_getElem, List.getElem_map]
  constructor
  · intro e he
    rw [hg]
    unfold resolveActivity
    rw [he]
    exact ⟨rfl, rfl, rfl, rfl, rfl⟩
  · intro cu hcu
    rw [hg]
    unfold resolveActivity
    rw [hcu]
    exact ⟨rfl, rfl, rfl⟩

theorem claim_C7_witness :
    (activitiesOf
        (fun cid => if cid = some (strL "u1")
          then .error "clerk failure"
          else .ok (some ⟨some (strL "Ada"), some (strL "L"), none⟩))
        (fun a => a)
        [⟨0, some (strL "u1"), strL "news.created", strL "d0", 0⟩,
         ⟨1, some (strL "u2"), strL "news.updated", strL "d1", 1⟩]).length = 2 ∧
    ((activitiesOf
        (fun cid => if cid = some (strL "u1")
          then .error "clerk failure"
          else .ok (some ⟨some (strL "Ada"), some (strL "L"), none⟩))
        (fun a => a)
        [⟨0, some (strL "u1"), strL "news.created", strL "d0", 0⟩,
         ⟨1, some (strL "u2"), strL "news.updated", strL "d1", 1⟩]).get
        ⟨0, by decide⟩).firstName = none ∧
    ((activitiesOf
        (fun cid => if cid = some (strL "u1")
          then .error "clerk failure"
          else .ok (some ⟨some (strL "Ada"), some (strL "L"), none⟩))
        (fun a => a)
        [⟨0, some (strL "u1"), strL "news.created", strL "d0", 0⟩,
         ⟨1, some (strL "u2"), strL "news.updated", strL "d1", 1⟩]).get
        ⟨1, by decide⟩).firstName = some (strL "Ada") := by
  have h := claim_C7_activity_resilience
    (fun cid => if cid = some (strL "u1")
      then .error "clerk failure"
      else .ok (some ⟨some (strL "Ada"), some (strL "L"), none⟩))
    (fun a => a)
    [⟨0, some (strL "u1"), strL "news.created", strL "d0", 0⟩,
     ⟨1, some (strL "u2"), strL "news.updated", strL "d1", 1⟩]
  refine ⟨h.1.trans rfl, ?_, ?_⟩
  · exact ((h.2 0 (by decide) (by decide)).1 "clerk failure" rfl).1
  · exact (((h.2 1 (by decide) (by decide)).2
      (some ⟨some (strL "Ada"), some (strL "L"), none⟩)) rfl).1

/-- C9: in the assembled dashboard metrics, the `totalReaders` trend is
computed from today's versus yesterday's new-article counts — identical to
the `totalNews` trend — and is independent of every reader- or like-related
count. -/
theorem claim_C9_readers_trend :
    (∀ c : DashboardCounts,
      (buildMetrics c).totalReaders.trend
          = calculateTrend c.todayArticles c.yesterdayArticles ∧
      (buildMetrics c).totalReaders.trend = (buildMetrics c).totalNews.trend) ∧
    (∀ c1 c2 : DashboardCounts,
      c1.todayArticles = c2.todayArticles →
      c1.yesterdayArticles = c2.yesterdayArticles →
      (buildMetrics c1).totalReaders.trend = (buildMetrics c2).totalReaders.trend) := by
  refine ⟨fun c => ⟨rfl, rfl⟩, fun c1 c2 h1 h2 => ?_⟩
  simp [buildMetrics, h1, h2]

theorem claim_C9_witness :
    (buildMetrics ⟨3, 2, 0, 0, 9, 9, 5, 5, 5⟩).totalReaders.trend
      = (buildMetrics ⟨3, 2, 7, 7, 1, 1, 8, 8, 8⟩).totalReaders.trend :=
  claim_C9_readers_trend.2 ⟨3, 2, 0, 0, 9, 9, 5, 5, 5⟩ ⟨3, 2, 7, 7, 1, 1, 8, 8, 8⟩ rfl rfl

/-- C10: a title whose base slug exceeds the maximum length of 100 is
truncated to `100 − 3 = 97` characters before any collision check, so when
that truncation does not collide the returned slug is exactly the
97-character prefix — length at most 97, not 100. -/
theorem claim_C10_long_title_truncation (used : List Str) (base : Str)
    (hlong : 100 < base.length) (hfree : base.take 97 ∉ used) :
    PathGenerator.makeUnique used 100 base = base.take 97 ∧
    (PathGenerator.makeUnique used 100 base).length ≤ 97 := by
  have heq : PathGenerator.makeUnique used 100 base = base.take 97 := by
    unfold PathGenerator.makeUnique
    rw [if_pos hlong]
    exact makeUniqueLoop_exit _ _ _ _ _ _ hfree
  refine ⟨heq, ?_⟩
  rw [heq, List.length_take]
  omega

theorem claim_C10_witness :
    PathGenerator.makeUnique [] 100 (List.replicate 101 'b')
      = (List.replicate 101 'b').take 97 ∧
    (PathGenerator.makeUnique [] 100 (List.replicate 101 'b')).length ≤ 97 :=
  claim_C10_long_title_truncation [] (List.replicate 101 'b') (by decide) (by decide)

/-- C8: the slug of the title `"Hello, World!"` is `"hello-world"`
(lowercased, punctuation stripped, whitespace collapsed to a single `-`),
and generating a slug whose base form `"breaking-news"` is already in the
used set yields `"breaking-news-1"`. -/
theorem claim_C8_slug_examples :
    PathGenerator.slugify (strL "Hello, World!") = strL "hello-world" ∧
    ((PathGenerator.new [strL "breaking-news"]).generatePath (strL "Breaking News")).1
      = strL "breaking-news-1" := by
  constructor <;> decide
